import Mathlib

/-!
A shallow embedding of `src/Detector.cpp` (the JS8Call audio capture /
decimation pipeline) and proofs about it.

The `Detector` class ingests raw PCM frames (`writeData`), accumulates them
in a working window (`m_buffer`, position `m_bufferPos`), and whenever the
window holds `m_samplesPerFFT * Filter::NDOWN` raw samples it runs the FIR
decimation filter `m_samplesPerFFT` times, appending the results to the
output buffer `dec_data.d2` at index `dec_data.params.kin`, then emits the
`framesWritten(kin)` signal.  `resetBufferPosition` re-derives `kin` from the
wall clock and rotates `d2`; `resetBufferContent` zero-fills `d2`.

Machine arithmetic: `kin` is a C `int`, `m_samplesPerFFT`, `m_frameRate` and
`msInPeriod` are `unsigned` (32-bit), `sizeof` arithmetic is `size_t`
(64-bit).  We model the integers as `Int`/`Nat` with explicit reductions
modulo `2^32` / `2^64` at the points where the C++ expressions wrap.
-/

namespace Detector

/-- `2^32`, the modulus of C++ 32-bit `unsigned` arithmetic. -/
def U32 : Nat := 4294967296

/-- `2^64`, the modulus of C++ `size_t` arithmetic. -/
def U64 : Nat := 18446744073709551616

/-- Two's-complement reinterpretation of an `unsigned` bit pattern as a C
`int` (the `static_cast<int>` / implicit unsigned-to-int conversions). -/
def i32ofBits (n : Nat) : Int :=
  if n % U32 < 2147483648 then ((n % U32 : Nat) : Int)
  else ((n % U32 : Nat) : Int) - (U32 : Int)

/-- The low 32 bits of an integer value, as a natural number (the value an
`unsigned` expression holds after wraparound). -/
def wrap32 (z : Int) : Nat := (z % (U32 : Int)).toNat

/-- The low 64 bits of an integer value, as a natural number (the value a
`size_t` expression holds after wraparound). -/
def wrap64 (z : Int) : Nat := (z % (U64 : Int)).toNat

/-- Configuration of one `Detector` instance.  `frameRate` and `period` are
the constructor arguments `frameRate` / `periodLengthInSeconds`;
`samplesPerFFT` is `m_samplesPerFFT` (set by `setBlockSize`).

Modelled from the spec (headers not in `src/`): `ndown` is the fixed
decimation factor `Filter::NDOWN`; `capacity` is the element count of
`dec_data.d2`, i.e. `sizeof(dec_data.d2)/sizeof(dec_data.d2[0])
= JS8_NTMAX * 12000` (max period length times the decimated sample rate) —
the same constant appears in `writeData`'s bounds check; `bytesPerFrame` is
`AudioDevice::bytesPerFrame()`, the byte size of one raw frame. -/
structure Cfg where
  frameRate : Nat
  period : Nat
  samplesPerFFT : Nat
  ndown : Nat
  capacity : Nat
  bytesPerFrame : Nat
deriving Repr, DecidableEq

/-- The size `m_samplesPerFFT * Filter::NDOWN` of the working sample
window. -/
def winSize (cfg : Cfg) : Nat := cfg.samplesPerFFT * cfg.ndown

/-- The mutable state of a `Detector`: `kin = dec_data.params.kin` (a C
`int`), `bufferPos = m_bufferPos`, `d2 = dec_data.d2` (the output sample
buffer), `buffer = m_buffer` (the working sample window), `ns = m_ns` (the
last observed second-in-period). -/
structure DetState where
  kin : Int
  bufferPos : Nat
  d2 : List Int
  buffer : List Int
  ns : Nat
deriving Repr, DecidableEq

/-- `Detector::secondInPeriod`: `((now % 86400000) / 1000) % m_period`,
with `now = DriftingDateTime::currentMSecsSinceEpoch()` passed in as a
parameter (the clock is an external collaborator). -/
def secondInPeriod (cfg : Cfg) (now : Nat) : Nat :=
  ((now % 86400000) / 1000) % cfg.period

/-- The period-wraparound check at the top of `Detector::writeData`: when
the current second-in-period is less than the recorded `m_ns`, restart the
buffers (`kin = 0`, `m_bufferPos = 0`); in all cases record `m_ns = ns`. -/
def wrapCheck (cfg : Cfg) (st : DetState) (now : Nat) : DetState :=
  let ns := secondInPeriod cfg now
  if ns < st.ns then { st with kin := 0, bufferPos := 0, ns := ns }
  else { st with ns := ns }

/-- `framesAcceptable` in `Detector::writeData`:
`(sizeof(dec_data.d2)/sizeof(dec_data.d2[0]) - dec_data.params.kin)
  * Filter::NDOWN`, computed in `size_t` arithmetic (the `int` `kin` is
converted to `size_t`, wrapping if negative). -/
def framesAcceptable (cfg : Cfg) (kin : Int) : Nat :=
  wrap64 ((cfg.capacity : Int) - kin) * cfg.ndown % U64

/-- The upper bound `static_cast<int>(JS8_NTMAX * 12000 - m_samplesPerFFT)`
of `writeData`'s decimation bounds check: the subtraction is performed in
32-bit `unsigned` arithmetic (`m_samplesPerFFT` is `unsigned`) and the
result reinterpreted as an `int`. -/
def blockBound (cfg : Cfg) : Int :=
  i32ofBits (wrap32 ((cfg.capacity : Int) - (cfg.samplesPerFFT : Int)))

/-- The decimation pass of `Detector::writeData` (the body of
`for (std::size_t i = 0; i < m_samplesPerFFT; ++i)`): writes
`m_filter.downSample(&m_buffer[i * Filter::NDOWN])` into
`dec_data.d2[kin + i]` for `i = 0 .. spFFT - 1`.

Modelled from the spec: `Filter::downSample` (not in `src/`) consumes the
`NDOWN` raw samples at window offset `i * NDOWN` (plus its internal FIR
history) and produces one decimated sample; it is modelled as an opaque
parameter `ds` of the window contents and the block index `i`. -/
def drainFill (ds : List Int → Nat → Int) (spFFT : Nat) (buffer : List Int)
    (d2 : List Int) (kin : Int) : List Int :=
  (List.range spFFT).foldl (fun acc i => acc.set (kin.toNat + i) (ds buffer i)) d2

/-- One iteration's tail of `writeData`'s copy loop, when the working window
has just become full (`m_bufferPos == m_samplesPerFFT * Filter::NDOWN`):
run the decimation pass if `0 <= kin < JS8_NTMAX*12000 - m_samplesPerFFT`
(advancing `kin` by `m_samplesPerFFT`), emit `framesWritten(kin)` either
way, and reset `m_bufferPos` to `0`.  Returns the new state and the emitted
`kin` values. -/
def drain (cfg : Cfg) (ds : List Int → Nat → Int) (st : DetState) :
    DetState × List Int :=
  let st1 :=
    if 0 ≤ st.kin ∧ st.kin < blockBound cfg then
      { st with
          d2 := drainFill ds cfg.samplesPerFFT st.buffer st.d2 st.kin,
          kin := st.kin + (cfg.samplesPerFFT : Int) }
    else st
  ({ st1 with bufferPos := 0 }, [st1.kin])

/-- The copy loop of `Detector::writeData` (`for (auto remaining = ...)`)
over the `framesAccepted` frames: each iteration stores
`min(m_samplesPerFFT * NDOWN - m_bufferPos, remaining)` frames into the
working window at `m_bufferPos` (via `AudioDevice::store`, modelled from
the spec as copying one already-decoded sample per raw frame), advances
`m_bufferPos`, and drains the window when it becomes exactly full.

`accepted` is the loop-constant `framesAccepted`, so the chunk read from
the input starts at frame index `accepted - remaining`.  The `fuel`
parameter makes the recursion structural: every iteration of the C++ loop
that makes progress consumes at least one frame, so `fuel = accepted`
suffices for every execution in which the loop terminates (when
`remaining > 0` but no frame can be consumed — only possible from states
with `m_bufferPos >= winSize`, which the detector never reaches — the C++
loop would spin without consuming input, and we stop instead). -/
def writeLoop (cfg : Cfg) (ds : List Int → Nat → Int) (frames : List Int)
    (accepted : Nat) : Nat → Nat → DetState → DetState × List Int
  | 0, _, st => (st, [])
  | fuel + 1, remaining, st =>
    if remaining = 0 then (st, [])
    else
      let n := min (winSize cfg - st.bufferPos) remaining
      let start := accepted - remaining
      let chunk := (frames.drop start).take n
      let st1 :=
        { st with
            buffer := st.buffer.take st.bufferPos ++ chunk
                        ++ st.buffer.drop (st.bufferPos + n),
            bufferPos := st.bufferPos + n }
      if st1.bufferPos = winSize cfg then
        let st2 := drain cfg ds st1
        let st3 := writeLoop cfg ds frames accepted fuel (remaining - n) st2.1
        (st3.1, st2.2 ++ st3.2)
      else
        writeLoop cfg ds frames accepted fuel (remaining - n) st1

/-- `Detector::writeData`.  Inputs: the state, the clock reading `now`, the
input decoded into whole frames `frames` (one sample per frame, as
`AudioDevice::store` produces), and the raw byte count `maxSize`.

Returns `none` when the `Q_ASSERT (!(maxSize % bytesPerFrame()))` torn-frame
assertion fires (the assertion aborts; no state is reported), otherwise
`some` of the final state, the list of `framesWritten` emissions, and the
return value — which is always the original `maxSize`. -/
def writeData (cfg : Cfg) (ds : List Int → Nat → Int) (st : DetState)
    (now : Nat) (frames : List Int) (maxSize : Nat) :
    Option (DetState × List Int × Nat) :=
  let st1 := wrapCheck cfg st now
  if maxSize % cfg.bytesPerFrame ≠ 0 then none
  else
    let accepted := min (maxSize / cfg.bytesPerFrame) (framesAcceptable cfg st1.kin)
    let r := writeLoop cfg ds frames accepted accepted accepted st1
    some (r.1, r.2, maxSize)

/-- Right rotation of a list by `d` places, the effect of
`std::rotate(rbegin, rbegin + d, rend)` on the array (for `0 ≤ d ≤ size`):
the element at index `i` moves to index `i + d` modulo the length. -/
def rotR (l : List Int) (d : Nat) : List Int :=
  l.rotate (l.length - d % l.length)

/-- `Detector::resetBufferPosition`: recompute `kin` from the period clock
(`msInPeriod * m_frameRate / 1000` in 32-bit `unsigned` arithmetic, clamped
to the buffer size), zero `m_bufferPos`, record `m_ns`, and rotate
`dec_data.d2` so that the contents previously at `prevKin` move to the new
`kin` (left rotation for negative `delta`, right rotation otherwise).

The C++ reads the clock twice (once directly, once inside
`secondInPeriod()`); the two readings are the parameters `now1`, `now2`. -/
def resetBufferPosition (cfg : Cfg) (st : DetState) (now1 now2 : Nat) :
    DetState :=
  let msInPeriod : Nat := (now1 % 86400000) % (cfg.period * 1000)
  let prevKin : Int := st.kin
  let kin : Int := i32ofBits (min (msInPeriod * cfg.frameRate % U32 / 1000)
                                  (cfg.capacity % U32))
  let delta : Int := kin - prevKin
  let d2 :=
    if delta < 0 then st.d2.rotate (-delta).toNat
    else rotR st.d2 delta.toNat
  { st with kin := kin, bufferPos := 0, ns := secondInPeriod cfg now2, d2 := d2 }

/-- `Detector::resetBufferContent`: `std::fill(begin(d2), end(d2), 0)` —
zero every element of the output sample buffer, touching nothing else. -/
def resetBufferContent (st : DetState) : DetState :=
  { st with d2 := List.replicate st.d2.length 0 }

/-- `Detector::clear` (with `JS8_RING_BUFFER` set, as built):
`resetBufferPosition()` then `resetBufferContent()`. -/
def clear (cfg : Cfg) (st : DetState) (now1 now2 : Nat) : DetState :=
  resetBufferContent (resetBufferPosition cfg st now1 now2)

/-- `Detector::reset`: `clear()` then return `isOpen()`.  The device-open
flag belongs to the `QIODevice` base (not in `src/`) and is passed in. -/
def reset (cfg : Cfg) (st : DetState) (now1 now2 : Nat) (isOpen : Bool) :
    DetState × Bool :=
  (clear cfg st now1 now2, isOpen)

/-- The value the spec assigns to `kin` on resynchronization, written from
the spec's words: `kin = min(floor(msIntoPeriod * frameRate / 1000),
capacity)`.  Kept separate so theorems can compare the code's 32-bit
computation against it. -/
def specResyncKin (cfg : Cfg) (now1 : Nat) : Nat :=
  min ((now1 % 86400000) % (cfg.period * 1000) * cfg.frameRate / 1000)
      cfg.capacity

/-- Lock and signal events of one `writeData` call, for reasoning about the
order of mutex operations and `framesWritten` emissions. -/
inductive Event where
  | acquire : Event
  | notify : Int → Event
  | release : Event
deriving Repr, DecidableEq

/-- The order of lock and signal operations in one `Detector::writeData`
call, read off the source: the `QMutexLocker` constructed in the first
statement acquires `m_lock`; every `Q_EMIT framesWritten(kin)` executes
inside the locker's scope; the locker's destructor releases the lock when
the function returns.  When the torn-frame assertion fires the process
aborts, so no release is recorded. -/
def writeDataTrace (cfg : Cfg) (ds : List Int → Nat → Int) (st : DetState)
    (now : Nat) (frames : List Int) (maxSize : Nat) : List Event :=
  match writeData cfg ds st now frames maxSize with
  | none => [Event.acquire]
  | some r => Event.acquire :: (r.2.1.map Event.notify ++ [Event.release])

end Detector

/-!  ## Helper lemmas -/

namespace Detector

theorem i32ofBits_eq_of_lt {n : Nat} (h : n < 2147483648) :
    i32ofBits n = (n : Int) := by
  unfold i32ofBits U32
  rw [Nat.mod_eq_of_lt (by omega)]
  simp [h]

theorem wrap32_eq {z : Int} (h0 : 0 ≤ z) (h1 : z < (U32 : Int)) :
    wrap32 z = z.toNat := by
  unfold wrap32
  rw [Int.emod_eq_of_lt h0 h1]

theorem wrap64_eq {z : Int} (h0 : 0 ≤ z) (h1 : z < (U64 : Int)) :
    wrap64 z = z.toNat := by
  unfold wrap64
  rw [Int.emod_eq_of_lt h0 h1]

theorem blockBound_eq (cfg : Cfg) (hsp : cfg.samplesPerFFT ≤ cfg.capacity)
    (hcap : cfg.capacity < 2147483648) :
    blockBound cfg = (cfg.capacity : Int) - (cfg.samplesPerFFT : Int) := by
  unfold blockBound
  have h0 : (0 : Int) ≤ (cfg.capacity : Int) - (cfg.samplesPerFFT : Int) := by
    omega
  have h1 : (cfg.capacity : Int) - (cfg.samplesPerFFT : Int) < (U32 : Int) := by
    unfold U32; omega
  rw [wrap32_eq h0 h1, i32ofBits_eq_of_lt (by omega)]
  omega

theorem framesAcceptable_eq (cfg : Cfg) {kin : Int} (h0 : 0 ≤ kin)
    (h1 : kin ≤ (cfg.capacity : Int)) (hcap : cfg.capacity < 2147483648)
    (hmul : cfg.capacity * cfg.ndown < U64) :
    framesAcceptable cfg kin = (cfg.capacity - kin.toNat) * cfg.ndown := by
  unfold framesAcceptable
  have hz0 : (0 : Int) ≤ (cfg.capacity : Int) - kin := by omega
  have hz1 : (cfg.capacity : Int) - kin < (U64 : Int) := by
    unfold U64; omega
  rw [wrap64_eq hz0 hz1]
  have htn : ((cfg.capacity : Int) - kin).toNat = cfg.capacity - kin.toNat := by
    omega
  rw [htn]
  apply Nat.mod_eq_of_lt
  calc (cfg.capacity - kin.toNat) * cfg.ndown
      ≤ cfg.capacity * cfg.ndown := by
        exact Nat.mul_le_mul_right _ (Nat.sub_le _ _)
    _ < U64 := hmul

theorem drainFill_zero (ds : List Int → Nat → Int) (buffer d2 : List Int)
    (kin : Int) : drainFill ds 0 buffer d2 kin = d2 := rfl

theorem drainFill_succ (ds : List Int → Nat → Int) (n : Nat)
    (buffer d2 : List Int) (kin : Int) :
    drainFill ds (n + 1) buffer d2 kin
      = (drainFill ds n buffer d2 kin).set (kin.toNat + n) (ds buffer n) := by
  unfold drainFill
  rw [List.range_succ, List.foldl_append]
  rfl

theorem drainFill_length (ds : List Int → Nat → Int) (spFFT : Nat)
    (buffer d2 : List Int) (kin : Int) :
    (drainFill ds spFFT buffer d2 kin).length = d2.length := by
  induction spFFT with
  | zero => rw [drainFill_zero]
  | succ n ih => rw [drainFill_succ, List.length_set, ih]

theorem drainFill_getD (ds : List Int → Nat → Int) (spFFT : Nat)
    (buffer d2 : List Int) (kin : Int) (j : Nat) :
    (drainFill ds spFFT buffer d2 kin).getD j 0 =
      if kin.toNat ≤ j ∧ j < kin.toNat + spFFT ∧ j < d2.length
      then ds buffer (j - kin.toNat) else d2.getD j 0 := by
  induction spFFT with
  | zero =>
    rw [drainFill_zero]
    have : ¬(kin.toNat ≤ j ∧ j < kin.toNat + 0 ∧ j < d2.length) := by omega
    rw [if_neg this]
  | succ n ih =>
    rw [drainFill_succ, List.getD_eq_getElem?_getD, List.getElem?_set,
        drainFill_length]
    by_cases hj : kin.toNat + n = j
    · rw [if_pos hj]
      by_cases hlen : j < d2.length
      · rw [if_pos (by omega : kin.toNat + n < d2.length)]
        rw [if_pos (by omega : kin.toNat ≤ j ∧ j < kin.toNat + (n + 1) ∧ j < d2.length)]
        have : j - kin.toNat = n := by omega
        rw [this]
        rfl
      · rw [if_neg (by omega : ¬ kin.toNat + n < d2.length)]
        rw [if_neg (by omega : ¬(kin.toNat ≤ j ∧ j < kin.toNat + (n + 1) ∧ j < d2.length))]
        rw [List.getD_eq_getElem?_getD, List.getElem?_eq_none (by omega : d2.length ≤ j)]
    · rw [if_neg hj, ← List.getD_eq_getElem?_getD, ih]
      by_cases hc : kin.toNat ≤ j ∧ j < kin.toNat + n ∧ j < d2.length
      · rw [if_pos hc, if_pos (by omega)]
      · rw [if_neg hc, if_neg (by omega)]

theorem writeLoop_rem_zero (cfg : Cfg) (ds : List Int → Nat → Int)
    (frames : List Int) (accepted fuel : Nat) (st : DetState) :
    writeLoop cfg ds frames accepted fuel 0 st = (st, []) := by
  cases fuel <;> simp [writeLoop]

end Detector

/-!  ## Claim theorems -/

namespace Detector

/-- C6: `writeData` fails (the torn-frame `Q_ASSERT` fires) if and only if
the input byte length is not an exact multiple of the frame byte size; in
particular every call whose length is `k * bytesPerFrame` succeeds, and the
framing error is the only condition under which the call fails. -/
theorem writeData_fails_iff_torn_frame (cfg : Cfg) (ds : List Int → Nat → Int)
    (st : DetState) (now : Nat) (frames : List Int) (maxSize : Nat) :
    (writeData cfg ds st now frames maxSize = none ↔
      maxSize % cfg.bytesPerFrame ≠ 0) ∧
    ∀ k : Nat, (writeData cfg ds st now frames (k * cfg.bytesPerFrame)).isSome := by
  constructor
  · by_cases h : maxSize % cfg.bytesPerFrame = 0 <;> simp [writeData, h]
  · intro k
    simp [writeData, Nat.mul_mod_left]

/-- C7: `clearContent` (`Detector::resetBufferContent`) zero-fills every
entry of the output sample buffer, preserves its length, and leaves `kin`,
the working-window position, the working window and the recorded
second-in-period unchanged. -/
theorem clearContent_zero_fills_and_keeps_kin (st : DetState) :
    (resetBufferContent st).kin = st.kin ∧
    (resetBufferContent st).bufferPos = st.bufferPos ∧
    (resetBufferContent st).ns = st.ns ∧
    (resetBufferContent st).buffer = st.buffer ∧
    (resetBufferContent st).d2.length = st.d2.length ∧
    ∀ j : Nat, (resetBufferContent st).d2.getD j 0 = 0 := by
  refine ⟨rfl, rfl, rfl, rfl, by simp [resetBufferContent], ?_⟩
  intro j
  simp only [resetBufferContent, List.getD_eq_getElem?_getD,
    List.getElem?_replicate]
  split <;> rfl

/-- C4: when the current second-in-period is strictly smaller than the
recorded one (period wraparound, e.g. the observed transition 59 → 0),
`writeData` resets `kin` and the working-window position to 0 before any
samples are stored — the whole call behaves exactly as if started from the
reset state — and the new second-in-period is recorded. -/
theorem writeData_period_wraparound (cfg : Cfg) (ds : List Int → Nat → Int)
    (st : DetState) (now : Nat) (frames : List Int) (maxSize : Nat)
    (h : secondInPeriod cfg now < st.ns) :
    wrapCheck cfg st now
      = { st with kin := 0, bufferPos := 0, ns := secondInPeriod cfg now } ∧
    writeData cfg ds st now frames maxSize
      = writeData cfg ds { st with kin := 0, bufferPos := 0 } now frames maxSize := by
  have h2 : wrapCheck cfg st now
      = { st with kin := 0, bufferPos := 0, ns := secondInPeriod cfg now } := by
    simp [wrapCheck, h]
  refine ⟨h2, ?_⟩
  have h3 : wrapCheck cfg { st with kin := 0, bufferPos := 0 } now
      = { st with kin := 0, bufferPos := 0, ns := secondInPeriod cfg now } := by
    simp only [wrapCheck]
    split <;> rfl
  unfold writeData
  rw [h2, h3]

/-- Concrete instance of `writeData_period_wraparound`: a 60-second period,
recorded second-in-period 59, clock now reading second 0. -/
theorem writeData_period_wraparound_witness :
    secondInPeriod ⟨1000, 60, 2, 2, 8, 2⟩ 0 < 59 ∧
    wrapCheck ⟨1000, 60, 2, 2, 8, 2⟩
        ⟨3, 2, List.replicate 8 0, List.replicate 4 0, 59⟩ 0
      = ⟨0, 0, List.replicate 8 0, List.replicate 4 0, 0⟩ := by
  have h := writeData_period_wraparound ⟨1000, 60, 2, 2, 8, 2⟩ (fun _ _ => 0)
      ⟨3, 2, List.replicate 8 0, List.replicate 4 0, 59⟩ 0 [] 0 (by decide)
  exact ⟨by decide, h.1.trans (by decide)⟩

end Detector

namespace Detector

theorem resetBufferPosition_bufferPos (cfg : Cfg) (st : DetState)
    (now1 now2 : Nat) : (resetBufferPosition cfg st now1 now2).bufferPos = 0 :=
  rfl

theorem resetBufferPosition_ns (cfg : Cfg) (st : DetState) (now1 now2 : Nat) :
    (resetBufferPosition cfg st now1 now2).ns = secondInPeriod cfg now2 :=
  rfl

theorem resetBufferPosition_kin_raw (cfg : Cfg) (st : DetState)
    (now1 now2 : Nat) :
    (resetBufferPosition cfg st now1 now2).kin
      = i32ofBits (min ((now1 % 86400000) % (cfg.period * 1000)
                          * cfg.frameRate % U32 / 1000)
                       (cfg.capacity % U32)) :=
  rfl

theorem resetBufferPosition_d2_raw (cfg : Cfg) (st : DetState)
    (now1 now2 : Nat) :
    (resetBufferPosition cfg st now1 now2).d2
      = (if i32ofBits (min ((now1 % 86400000) % (cfg.period * 1000)
                              * cfg.frameRate % U32 / 1000)
                           (cfg.capacity % U32)) - st.kin < 0
         then st.d2.rotate (-(i32ofBits (min ((now1 % 86400000)
                % (cfg.period * 1000) * cfg.frameRate % U32 / 1000)
                (cfg.capacity % U32)) - st.kin)).toNat
         else rotR st.d2 (i32ofBits (min ((now1 % 86400000)
                % (cfg.period * 1000) * cfg.frameRate % U32 / 1000)
                (cfg.capacity % U32)) - st.kin).toNat) :=
  rfl

theorem i32resync_eq (cfg : Cfg) (now1 : Nat)
    (hover : (now1 % 86400000) % (cfg.period * 1000) * cfg.frameRate < U32)
    (hcap : cfg.capacity < 2147483648) :
    i32ofBits (min ((now1 % 86400000) % (cfg.period * 1000)
                      * cfg.frameRate % U32 / 1000)
                   (cfg.capacity % U32))
      = (specResyncKin cfg now1 : Int) := by
  have hc32 : cfg.capacity < U32 := by unfold U32; omega
  rw [Nat.mod_eq_of_lt hover, Nat.mod_eq_of_lt hc32]
  unfold specResyncKin
  exact i32ofBits_eq_of_lt (by omega)

theorem resetBufferPosition_kin (cfg : Cfg) (st : DetState) (now1 now2 : Nat)
    (hover : (now1 % 86400000) % (cfg.period * 1000) * cfg.frameRate < U32)
    (hcap : cfg.capacity < 2147483648) :
    (resetBufferPosition cfg st now1 now2).kin = (specResyncKin cfg now1 : Int) := by
  rw [resetBufferPosition_kin_raw, i32resync_eq cfg now1 hover hcap]

theorem rotR_length (l : List Int) (d : Nat) : (rotR l d).length = l.length := by
  unfold rotR
  exact List.length_rotate l _

theorem resetBufferPosition_d2_length (cfg : Cfg) (st : DetState)
    (now1 now2 : Nat) :
    (resetBufferPosition cfg st now1 now2).d2.length = st.d2.length := by
  rw [resetBufferPosition_d2_raw]
  split
  · exact List.length_rotate st.d2 _
  · exact rotR_length st.d2 _

end Detector

namespace Detector

/-- C8 counterexample: at clock reading 5000 ms (5 s into a 15 s period,
frame rate 1), `reset` leaves `kin = 5`, not `kin = 0`: the pipeline is not
returned to the `kin = 0` idle state the claim describes. -/
theorem reset_kin_nonzero_counterexample :
    (reset ⟨1, 15, 2, 2, 8, 2⟩ ⟨3, 2, List.replicate 8 0, List.replicate 4 0, 0⟩
        5000 5000 true).1.kin = 5 ∧
    ¬ (reset ⟨1, 15, 2, 2, 8, 2⟩ ⟨3, 2, List.replicate 8 0, List.replicate 4 0, 0⟩
        5000 5000 true).1.kin = 0 := by
  decide

/-- C8 (amended): `reset` zero-fills the output sample buffer, sets the
working-window position to 0, records the current second-in-period, and has
no failure path of its own (it returns the device-open flag unchanged) —
but `kin` is not reset to 0: it is resynchronized to the period clock,
`min(floor(msIntoPeriod * frameRate / 1000), capacity)`, which is 0 only at
a period boundary. -/
theorem reset_clears_buffer_and_resyncs_kin (cfg : Cfg) (st : DetState)
    (now1 now2 : Nat) (isOpen : Bool)
    (hover : (now1 % 86400000) % (cfg.period * 1000) * cfg.frameRate < U32)
    (hcap : cfg.capacity < 2147483648) :
    (reset cfg st now1 now2 isOpen).2 = isOpen ∧
    (reset cfg st now1 now2 isOpen).1.bufferPos = 0 ∧
    (reset cfg st now1 now2 isOpen).1.kin = (specResyncKin cfg now1 : Int) ∧
    (reset cfg st now1 now2 isOpen).1.ns = secondInPeriod cfg now2 ∧
    (reset cfg st now1 now2 isOpen).1.d2.length = st.d2.length ∧
    ∀ j : Nat, (reset cfg st now1 now2 isOpen).1.d2.getD j 0 = 0 := by
  have hre : (reset cfg st now1 now2 isOpen).1
      = resetBufferContent (resetBufferPosition cfg st now1 now2) := rfl
  refine ⟨rfl, ?_, ?_, ?_, ?_, ?_⟩
  · rw [hre]
    show (resetBufferPosition cfg st now1 now2).bufferPos = 0
    exact resetBufferPosition_bufferPos cfg st now1 now2
  · rw [hre]
    show (resetBufferPosition cfg st now1 now2).kin = _
    exact resetBufferPosition_kin cfg st now1 now2 hover hcap
  · rw [hre]
    show (resetBufferPosition cfg st now1 now2).ns = _
    exact resetBufferPosition_ns cfg st now1 now2
  · rw [hre]
    show (List.replicate (resetBufferPosition cfg st now1 now2).d2.length
            (0 : Int)).length = st.d2.length
    rw [List.length_replicate, resetBufferPosition_d2_length]
  · intro j
    rw [hre]
    show (List.replicate (resetBufferPosition cfg st now1 now2).d2.length
            (0 : Int)).getD j 0 = 0
    rw [List.getD_eq_getElem?_getD, List.getElem?_replicate]
    split <;> rfl

/-- Concrete instance of `reset_clears_buffer_and_resyncs_kin`: 5 s into a
15 s period at frame rate 1, `reset` yields `kin = 5`, window position 0,
and an all-zero buffer. -/
theorem reset_clears_buffer_and_resyncs_kin_witness :
    (5000 % 86400000) % (15 * 1000) * 1 < U32 ∧
    (reset ⟨1, 15, 2, 2, 8, 2⟩ ⟨3, 2, [1, 2, 3, 4, 5, 6, 7, 8], [9, 9, 9, 9], 7⟩
        5000 5000 true).1.kin = 5 ∧
    (reset ⟨1, 15, 2, 2, 8, 2⟩ ⟨3, 2, [1, 2, 3, 4, 5, 6, 7, 8], [9, 9, 9, 9], 7⟩
        5000 5000 true).1.bufferPos = 0 ∧
    (reset ⟨1, 15, 2, 2, 8, 2⟩ ⟨3, 2, [1, 2, 3, 4, 5, 6, 7, 8], [9, 9, 9, 9], 7⟩
        5000 5000 true).1.d2.getD 0 0 = 0 := by
  have h := reset_clears_buffer_and_resyncs_kin ⟨1, 15, 2, 2, 8, 2⟩
      ⟨3, 2, [1, 2, 3, 4, 5, 6, 7, 8], [9, 9, 9, 9], 7⟩ 5000 5000 true
      (by decide) (by decide)
  refine ⟨by decide, ?_, h.2.1, h.2.2.2.2.2 0⟩
  rw [h.2.2.1]
  decide

end Detector

namespace Detector

theorem getD_rotate (l : List Int) (n k : Nat) (hk : k < l.length) :
    (l.rotate n).getD k 0 = l.getD ((k + n) % l.length) 0 := by
  have hk2 : k < (l.rotate n).length := by
    rw [List.length_rotate]; exact hk
  have hmod : (k + n) % l.length < l.length := Nat.mod_lt _ (by omega)
  rw [List.getD_eq_getElem _ 0 hk2, List.getElem_rotate,
      List.getD_eq_getElem _ 0 hmod]

/-- C5: `resynchronize` (`Detector::resetBufferPosition`) sets `kin` to
`min(floor(msIntoPeriod * frameRate / 1000), capacity)` (no 32-bit
overflow assumed), resets the window position to 0, and rotates — it does
not clear — the output sample buffer: for `delta = newKin − oldKin`, a
negative `delta` rotates left by `|delta|` and a nonnegative `delta`
rotates right by `delta`, so the element previously at the old `kin` index
appears at the new `kin` index. -/
theorem resynchronize_rotates_buffer (cfg : Cfg) (st : DetState)
    (now1 now2 : Nat)
    (hover : (now1 % 86400000) % (cfg.period * 1000) * cfg.frameRate < U32)
    (hcap : cfg.capacity < 2147483648)
    (hlen : st.d2.length = cfg.capacity)
    (hk0 : 0 ≤ st.kin) (hk1 : st.kin.toNat < cfg.capacity) :
    (resetBufferPosition cfg st now1 now2).kin = (specResyncKin cfg now1 : Int) ∧
    (resetBufferPosition cfg st now1 now2).bufferPos = 0 ∧
    (resetBufferPosition cfg st now1 now2).d2.Perm st.d2 ∧
    ((specResyncKin cfg now1 : Int) - st.kin < 0 →
      (resetBufferPosition cfg st now1 now2).d2
        = st.d2.rotate (st.kin - (specResyncKin cfg now1 : Int)).toNat) ∧
    (0 ≤ (specResyncKin cfg now1 : Int) - st.kin →
      (resetBufferPosition cfg st now1 now2).d2
        = rotR st.d2 ((specResyncKin cfg now1 : Int) - st.kin).toNat) ∧
    (specResyncKin cfg now1 < cfg.capacity →
      (resetBufferPosition cfg st now1 now2).d2.getD (specResyncKin cfg now1) 0
        = st.d2.getD st.kin.toNat 0) := by
  have hd2 : (resetBufferPosition cfg st now1 now2).d2
      = if (specResyncKin cfg now1 : Int) - st.kin < 0
        then st.d2.rotate (-((specResyncKin cfg now1 : Int) - st.kin)).toNat
        else rotR st.d2 ((specResyncKin cfg now1 : Int) - st.kin).toNat := by
    rw [resetBufferPosition_d2_raw, i32resync_eq cfg now1 hover hcap]
  refine ⟨resetBufferPosition_kin cfg st now1 now2 hover hcap,
    resetBufferPosition_bufferPos cfg st now1 now2, ?_, ?_, ?_, ?_⟩
  · rw [hd2]
    split
    · exact List.rotate_perm st.d2 _
    · unfold rotR
      exact List.rotate_perm st.d2 _
  · intro h
    rw [hd2, if_pos h]
    congr 1
    omega
  · intro h
    rw [hd2, if_neg (by omega)]
  · intro hKlt
    rw [hd2]
    by_cases hneg : (specResyncKin cfg now1 : Int) - st.kin < 0
    · rw [if_pos hneg]
      have harg : (-((specResyncKin cfg now1 : Int) - st.kin)).toNat
          = st.kin.toNat - specResyncKin cfg now1 := by omega
      rw [harg, getD_rotate st.d2 _ _ (by omega)]
      have hidx : (specResyncKin cfg now1
            + (st.kin.toNat - specResyncKin cfg now1)) % st.d2.length
          = st.kin.toNat := by
        rw [hlen]
        have hsum : specResyncKin cfg now1
            + (st.kin.toNat - specResyncKin cfg now1) = st.kin.toNat := by
          omega
        rw [hsum]
        exact Nat.mod_eq_of_lt hk1
      rw [hidx]
    · rw [if_neg hneg]
      unfold rotR
      have harg : ((specResyncKin cfg now1 : Int) - st.kin).toNat
          = specResyncKin cfg now1 - st.kin.toNat := by omega
      rw [harg, getD_rotate st.d2 _ _ (by omega)]
      have hidx : (specResyncKin cfg now1
            + (st.d2.length
                - (specResyncKin cfg now1 - st.kin.toNat) % st.d2.length))
              % st.d2.length
          = st.kin.toNat := by
        rw [hlen]
        have hmod : (specResyncKin cfg now1 - st.kin.toNat) % cfg.capacity
            = specResyncKin cfg now1 - st.kin.toNat := by
          apply Nat.mod_eq_of_lt; omega
        rw [hmod]
        have hsum : specResyncKin cfg now1
            + (cfg.capacity - (specResyncKin cfg now1 - st.kin.toNat))
            = cfg.capacity + st.kin.toNat := by
          omega
        rw [hsum, Nat.add_mod_left]
        exact Nat.mod_eq_of_lt hk1
      rw [hidx]

/-- Concrete instance of `resynchronize_rotates_buffer`: the clock puts the
new `kin` at 5 with the old `kin` at 3 (`delta = +2`, right rotation by 2);
the value 3 previously stored at index 3 appears at index 5. -/
theorem resynchronize_rotates_buffer_witness :
    (resetBufferPosition ⟨1, 15, 2, 2, 8, 2⟩
        ⟨3, 2, [0, 1, 2, 3, 4, 5, 6, 7], [9, 9, 9, 9], 0⟩ 5000 5000).kin = 5 ∧
    (resetBufferPosition ⟨1, 15, 2, 2, 8, 2⟩
        ⟨3, 2, [0, 1, 2, 3, 4, 5, 6, 7], [9, 9, 9, 9], 0⟩ 5000 5000).d2.getD 5 0
      = 3 := by
  have h := resynchronize_rotates_buffer ⟨1, 15, 2, 2, 8, 2⟩
      ⟨3, 2, [0, 1, 2, 3, 4, 5, 6, 7], [9, 9, 9, 9], 0⟩ 5000 5000
      (by decide) (by decide) (by decide) (by decide) (by decide)
  constructor
  · rw [h.1]; decide
  · have hm := h.2.2.2.2.2 (by decide)
    have hsK : specResyncKin ⟨1, 15, 2, 2, 8, 2⟩ 5000 = 5 := by decide
    rw [hsK] at hm
    rw [hm]
    decide

end Detector

namespace Detector

theorem writeLoop_single_fill (cfg : Cfg) (ds : List Int → Nat → Int)
    (frames : List Int) (st : DetState) (hbp : st.bufferPos < winSize cfg) :
    writeLoop cfg ds frames (winSize cfg - st.bufferPos)
        (winSize cfg - st.bufferPos) (winSize cfg - st.bufferPos) st
      = drain cfg ds
          { st with
              buffer := st.buffer.take st.bufferPos
                          ++ frames.take (winSize cfg - st.bufferPos)
                          ++ st.buffer.drop (winSize cfg),
              bufferPos := winSize cfg } := by
  obtain ⟨m, hm⟩ : ∃ m, winSize cfg - st.bufferPos = m + 1 :=
    ⟨winSize cfg - st.bufferPos - 1, by omega⟩
  rw [hm]
  simp only [writeLoop]
  rw [if_neg (by omega : ¬ (m + 1 = 0))]
  have hn : min (winSize cfg - st.bufferPos) (m + 1) = m + 1 := by
    rw [hm]; exact min_self _
  have hfull : st.bufferPos + (m + 1) = winSize cfg := by omega
  simp only [hn, hfull, Nat.sub_self, List.drop_zero, if_pos]
  rw [writeLoop_rem_zero]
  simp

end Detector

namespace Detector

theorem writeData_single_fill (cfg : Cfg) (ds : List Int → Nat → Int)
    (st : DetState) (now : Nat) (frames : List Int) (maxSize : Nat)
    (hnw : ¬ secondInPeriod cfg now < st.ns)
    (htorn : maxSize % cfg.bytesPerFrame = 0)
    (hbp : st.bufferPos < winSize cfg)
    (hacc : min (maxSize / cfg.bytesPerFrame) (framesAcceptable cfg st.kin)
              = winSize cfg - st.bufferPos) :
    writeData cfg ds st now frames maxSize
      = some ((drain cfg ds
            { st with
                ns := secondInPeriod cfg now,
                buffer := st.buffer.take st.bufferPos
                            ++ frames.take (winSize cfg - st.bufferPos)
                            ++ st.buffer.drop (winSize cfg),
                bufferPos := winSize cfg }).1,
          (drain cfg ds
            { st with
                ns := secondInPeriod cfg now,
                buffer := st.buffer.take st.bufferPos
                            ++ frames.take (winSize cfg - st.bufferPos)
                            ++ st.buffer.drop (winSize cfg),
                bufferPos := winSize cfg }).2, maxSize) := by
  have hst1 : wrapCheck cfg st now = { st with ns := secondInPeriod cfg now } := by
    simp [wrapCheck, hnw]
  have hloop := writeLoop_single_fill cfg ds frames
      { st with ns := secondInPeriod cfg now } hbp
  unfold writeData
  rw [hst1, if_neg (by simp [htorn])]
  simp only at hloop ⊢
  rw [hacc, hloop]

theorem drain_pass (cfg : Cfg) (ds : List Int → Nat → Int) (st : DetState)
    (hguard : 0 ≤ st.kin ∧ st.kin < blockBound cfg) :
    drain cfg ds st
      = ({ st with
             d2 := drainFill ds cfg.samplesPerFFT st.buffer st.d2 st.kin,
             kin := st.kin + (cfg.samplesPerFFT : Int),
             bufferPos := 0 },
         [st.kin + (cfg.samplesPerFFT : Int)]) := by
  unfold drain
  rw [if_pos hguard]

theorem drain_skip (cfg : Cfg) (ds : List Int → Nat → Int) (st : DetState)
    (hguard : ¬ (0 ≤ st.kin ∧ st.kin < blockBound cfg)) :
    drain cfg ds st = ({ st with bufferPos := 0 }, [st.kin]) := by
  unfold drain
  rw [if_neg hguard]

/-- C2: a `writeData` call that fills the working sample window exactly
(the accepted frame count equals the free room `winSize - bufferPos`),
with no period wraparound and `0 ≤ kin < capacity − outputBlockSize`,
writes exactly `outputBlockSize` decimated samples into the output sample
buffer starting at index `kin` (one `ds` output per slot, every other slot
untouched), advances `kin` by exactly `outputBlockSize`, emits the
`framesWritten` notification exactly once carrying the updated `kin`, and
resets the window position to 0. -/
theorem writeData_window_fill_decimates (cfg : Cfg)
    (ds : List Int → Nat → Int) (st : DetState) (now : Nat)
    (frames : List Int) (maxSize : Nat)
    (hnw : ¬ secondInPeriod cfg now < st.ns)
    (htorn : maxSize % cfg.bytesPerFrame = 0)
    (hbp : st.bufferPos < winSize cfg)
    (hacc : min (maxSize / cfg.bytesPerFrame) (framesAcceptable cfg st.kin)
              = winSize cfg - st.bufferPos)
    (hsp : cfg.samplesPerFFT ≤ cfg.capacity)
    (hcap : cfg.capacity < 2147483648)
    (hk0 : 0 ≤ st.kin)
    (hk1 : st.kin < (cfg.capacity : Int) - (cfg.samplesPerFFT : Int))
    (hlen : st.d2.length = cfg.capacity) :
    ∀ st2 notifs ret,
      writeData cfg ds st now frames maxSize = some (st2, notifs, ret) →
      st2.kin = st.kin + (cfg.samplesPerFFT : Int) ∧
      st2.bufferPos = 0 ∧
      notifs = [st.kin + (cfg.samplesPerFFT : Int)] ∧
      st2.d2.length = cfg.capacity ∧
      (∀ i, i < cfg.samplesPerFFT →
        st2.d2.getD (st.kin.toNat + i) 0
          = ds (st.buffer.take st.bufferPos
                  ++ frames.take (winSize cfg - st.bufferPos)
                  ++ st.buffer.drop (winSize cfg)) i) ∧
      (∀ j, j < st.kin.toNat ∨ st.kin.toNat + cfg.samplesPerFFT ≤ j →
        st2.d2.getD j 0 = st.d2.getD j 0) := by
  intro st2 notifs ret heq
  rw [writeData_single_fill cfg ds st now frames maxSize hnw htorn hbp hacc]
    at heq
  have hguard : 0 ≤ st.kin ∧ st.kin < blockBound cfg := by
    refine ⟨hk0, ?_⟩
    rw [blockBound_eq cfg hsp hcap]
    exact hk1
  rw [drain_pass cfg ds
      { st with
          ns := secondInPeriod cfg now,
          buffer := st.buffer.take st.bufferPos
                      ++ frames.take (winSize cfg - st.bufferPos)
                      ++ st.buffer.drop (winSize cfg),
          bufferPos := winSize cfg }
      hguard] at heq
  simp only [Option.some.injEq, Prod.mk.injEq] at heq
  obtain ⟨h1, h2, _⟩ := heq
  subst h1 h2
  refine ⟨rfl, rfl, rfl, ?_, ?_, ?_⟩
  · simp only [drainFill_length]
    exact hlen
  · intro i hi
    simp only [drainFill_getD]
    rw [if_pos (by omega : st.kin.toNat ≤ st.kin.toNat + i
          ∧ st.kin.toNat + i < st.kin.toNat + cfg.samplesPerFFT
          ∧ st.kin.toNat + i < st.d2.length)]
    congr 1
    omega
  · intro j hj
    simp only [drainFill_getD]
    rw [if_neg (by omega)]

end Detector

namespace Detector

/-- Concrete instance of `writeData_window_fill_decimates`: block size 2,
decimation factor 2, window of 4 with 1 sample already present; writing 3
frames (6 bytes) fills the window, produces 2 decimated samples at indices
1 and 2, advances `kin` from 1 to 3, and notifies once with 3. -/
theorem writeData_window_fill_decimates_witness :
    writeData ⟨1000, 15, 2, 2, 8, 2⟩
        (fun buf i => buf.getD (i * 2) 0 + 100 * (i : Int))
        ⟨1, 1, List.replicate 8 0, List.replicate 4 0, 0⟩ 0 [5, 6, 7] 6
      = some (⟨3, 0, [0, 0, 106, 0, 0, 0, 0, 0], [0, 5, 6, 7], 0⟩, [3], 6) ∧
    (⟨3, 0, [0, 0, 106, 0, 0, 0, 0, 0], [0, 5, 6, 7], 0⟩ : DetState).kin = 3 ∧
    ([0, 0, 106, 0, 0, 0, 0, 0] : List Int).getD 2 0 = 106 := by
  have heq : writeData ⟨1000, 15, 2, 2, 8, 2⟩
      (fun buf i => buf.getD (i * 2) 0 + 100 * (i : Int))
      ⟨1, 1, List.replicate 8 0, List.replicate 4 0, 0⟩ 0 [5, 6, 7] 6
      = some (⟨3, 0, [0, 0, 106, 0, 0, 0, 0, 0], [0, 5, 6, 7], 0⟩, [3], 6) := by
    decide
  have h := writeData_window_fill_decimates ⟨1000, 15, 2, 2, 8, 2⟩
      (fun buf i => buf.getD (i * 2) 0 + 100 * (i : Int))
      ⟨1, 1, List.replicate 8 0, List.replicate 4 0, 0⟩ 0 [5, 6, 7] 6
      (by decide) (by decide) (by decide) (by decide) (by decide) (by decide)
      (by decide) (by decide) (by decide) _ _ _ heq
  refine ⟨heq, h.1.trans (by decide), ?_⟩
  have h5 := h.2.2.2.2.1 1 (by decide)
  exact h5.trans (by decide)

/-- C10: when the working window becomes exactly full but the bounds check
fails (`kin < 0` or `kin ≥ capacity − outputBlockSize`), the decimated
block is silently discarded — the output buffer and `kin` are unchanged —
yet the `framesWritten` notification still fires, exactly once, carrying
the unchanged `kin`, and the window position is still reset to 0. -/
theorem writeData_window_fill_skips_but_notifies (cfg : Cfg)
    (ds : List Int → Nat → Int) (st : DetState) (now : Nat)
    (frames : List Int) (maxSize : Nat)
    (hnw : ¬ secondInPeriod cfg now < st.ns)
    (htorn : maxSize % cfg.bytesPerFrame = 0)
    (hbp : st.bufferPos < winSize cfg)
    (hacc : min (maxSize / cfg.bytesPerFrame) (framesAcceptable cfg st.kin)
              = winSize cfg - st.bufferPos)
    (hsp : cfg.samplesPerFFT ≤ cfg.capacity)
    (hcap : cfg.capacity < 2147483648)
    (hbad : st.kin < 0
            ∨ (cfg.capacity : Int) - (cfg.samplesPerFFT : Int) ≤ st.kin) :
    ∀ st2 notifs ret,
      writeData cfg ds st now frames maxSize = some (st2, notifs, ret) →
      st2.kin = st.kin ∧
      st2.bufferPos = 0 ∧
      notifs = [st.kin] ∧
      st2.d2 = st.d2 := by
  intro st2 notifs ret heq
  rw [writeData_single_fill cfg ds st now frames maxSize hnw htorn hbp hacc]
    at heq
  have hguard : ¬ (0 ≤ st.kin ∧ st.kin < blockBound cfg) := by
    rintro ⟨g1, g2⟩
    rw [blockBound_eq cfg hsp hcap] at g2
    rcases hbad with hb | hb <;> omega
  rw [drain_skip cfg ds
      { st with
          ns := secondInPeriod cfg now,
          buffer := st.buffer.take st.bufferPos
                      ++ frames.take (winSize cfg - st.bufferPos)
                      ++ st.buffer.drop (winSize cfg),
          bufferPos := winSize cfg }
      hguard] at heq
  simp only [Option.some.injEq, Prod.mk.injEq] at heq
  obtain ⟨h1, h2, _⟩ := heq
  subst h1 h2
  exact ⟨rfl, rfl, rfl, rfl⟩

/-- Concrete instance of `writeData_window_fill_skips_but_notifies`:
`kin = 7` with capacity 8 and block size 2 fails the bounds check; the
window fill discards the block, leaves `kin` and the buffer unchanged, and
still notifies once with 7. -/
theorem writeData_window_fill_skips_but_notifies_witness :
    writeData ⟨1000, 15, 2, 2, 8, 2⟩
        (fun buf i => buf.getD (i * 2) 0 + 100 * (i : Int))
        ⟨7, 2, List.replicate 8 0, List.replicate 4 0, 0⟩ 0 [5, 6] 4
      = some (⟨7, 0, List.replicate 8 0, [0, 0, 5, 6], 0⟩, [7], 4) ∧
    (⟨7, 0, List.replicate 8 0, [0, 0, 5, 6], 0⟩ : DetState).kin = 7 ∧
    (⟨7, 0, List.replicate 8 0, [0, 0, 5, 6], 0⟩ : DetState).d2
      = List.replicate 8 0 := by
  have heq : writeData ⟨1000, 15, 2, 2, 8, 2⟩
      (fun buf i => buf.getD (i * 2) 0 + 100 * (i : Int))
      ⟨7, 2, List.replicate 8 0, List.replicate 4 0, 0⟩ 0 [5, 6] 4
      = some (⟨7, 0, List.replicate 8 0, [0, 0, 5, 6], 0⟩, [7], 4) := by
    decide
  have h := writeData_window_fill_skips_but_notifies ⟨1000, 15, 2, 2, 8, 2⟩
      (fun buf i => buf.getD (i * 2) 0 + 100 * (i : Int))
      ⟨7, 2, List.replicate 8 0, List.replicate 4 0, 0⟩ 0 [5, 6] 4
      (by decide) (by decide) (by decide) (by decide) (by decide) (by decide)
      (by decide) _ _ _ heq
  exact ⟨heq, h.1, h.2.2.2⟩

end Detector

namespace Detector

theorem drain_inv (cfg : Cfg) (ds : List Int → Nat → Int) (st : DetState)
    (hsp : cfg.samplesPerFFT ≤ cfg.capacity)
    (hcap : cfg.capacity < 2147483648)
    (hk0 : 0 ≤ st.kin) (hk1 : st.kin ≤ (cfg.capacity : Int))
    (hlen : st.d2.length = cfg.capacity) :
    0 ≤ (drain cfg ds st).1.kin ∧
    (drain cfg ds st).1.kin ≤ (cfg.capacity : Int) ∧
    st.kin ≤ (drain cfg ds st).1.kin ∧
    (drain cfg ds st).1.d2.length = cfg.capacity ∧
    (drain cfg ds st).2 = [(drain cfg ds st).1.kin] ∧
    (drain cfg ds st).1.bufferPos = 0 ∧
    (drain cfg ds st).1.buffer = st.buffer ∧
    (drain cfg ds st).1.ns = st.ns := by
  unfold drain
  by_cases hguard : 0 ≤ st.kin ∧ st.kin < blockBound cfg
  · rw [if_pos hguard]
    have hb := hguard.2
    rw [blockBound_eq cfg hsp hcap] at hb
    simp only [drainFill_length]
    refine ⟨by omega, by omega, by omega, hlen, ?_, ?_, ?_, ?_⟩ <;> trivial
  · rw [if_neg hguard]
    exact ⟨hk0, hk1, le_refl _, hlen, rfl, rfl, rfl, rfl⟩

theorem writeLoop_inv (cfg : Cfg) (ds : List Int → Nat → Int)
    (frames : List Int) (accepted : Nat)
    (hsp : cfg.samplesPerFFT ≤ cfg.capacity)
    (hcap : cfg.capacity < 2147483648) :
    ∀ fuel remaining st,
      0 ≤ st.kin → st.kin ≤ (cfg.capacity : Int) →
      st.d2.length = cfg.capacity →
      0 ≤ (writeLoop cfg ds frames accepted fuel remaining st).1.kin ∧
      (writeLoop cfg ds frames accepted fuel remaining st).1.kin
        ≤ (cfg.capacity : Int) ∧
      st.kin ≤ (writeLoop cfg ds frames accepted fuel remaining st).1.kin ∧
      (writeLoop cfg ds frames accepted fuel remaining st).1.d2.length
        = cfg.capacity ∧
      ∀ k ∈ (writeLoop cfg ds frames accepted fuel remaining st).2,
        0 ≤ k ∧ k ≤ (cfg.capacity : Int) := by
  intro fuel
  induction fuel with
  | zero =>
    intro remaining st hk0 hk1 hlen
    exact ⟨hk0, hk1, le_refl _, hlen, by simp [writeLoop]⟩
  | succ f ih =>
    intro remaining st hk0 hk1 hlen
    by_cases h0 : remaining = 0
    · subst h0
      rw [writeLoop_rem_zero]
      exact ⟨hk0, hk1, le_refl _, hlen, by simp⟩
    · simp only [writeLoop]
      rw [if_neg h0]
      set n := min (winSize cfg - st.bufferPos) remaining with hn
      set st1 : DetState :=
        { st with
            buffer := st.buffer.take st.bufferPos
                        ++ (frames.drop (accepted - remaining)).take n
                        ++ st.buffer.drop (st.bufferPos + n),
            bufferPos := st.bufferPos + n } with hst1
      by_cases hfull : st1.bufferPos = winSize cfg
      · rw [if_pos hfull]
        have hd := drain_inv cfg ds st1 hsp hcap hk0 hk1 hlen
        have hrec := ih (remaining - n) (drain cfg ds st1).1
          hd.1 hd.2.1 hd.2.2.2.1
        refine ⟨hrec.1, hrec.2.1, le_trans hd.2.2.1 hrec.2.2.1,
          hrec.2.2.2.1, ?_⟩
        intro k hk
        simp only [List.mem_append] at hk
        rcases hk with hk | hk
        · rw [hd.2.2.2.2.1] at hk
          simp only [List.mem_singleton] at hk
          subst hk
          exact ⟨hd.1, hd.2.1⟩
        · exact hrec.2.2.2.2 k hk
      · rw [if_neg hfull]
        exact ih (remaining - n) st1 hk0 hk1 hlen

end Detector

namespace Detector

theorem wrapCheck_bounds (cfg : Cfg) (st : DetState) (now : Nat)
    (hk0 : 0 ≤ st.kin) (hk1 : st.kin ≤ (cfg.capacity : Int)) :
    0 ≤ (wrapCheck cfg st now).kin ∧
    (wrapCheck cfg st now).kin ≤ (cfg.capacity : Int) ∧
    (wrapCheck cfg st now).d2 = st.d2 ∧
    (¬ secondInPeriod cfg now < st.ns → (wrapCheck cfg st now).kin = st.kin) := by
  unfold wrapCheck
  by_cases h : secondInPeriod cfg now < st.ns
  · rw [if_pos h]
    exact ⟨le_refl _, by positivity, rfl, fun hc => absurd h hc⟩
  · rw [if_neg h]
    exact ⟨hk0, hk1, rfl, fun _ => rfl⟩

theorem resetBufferPosition_kin_bounds (cfg : Cfg) (st : DetState)
    (now1 now2 : Nat) (hcap : cfg.capacity < 2147483648) :
    0 ≤ (resetBufferPosition cfg st now1 now2).kin ∧
    (resetBufferPosition cfg st now1 now2).kin ≤ (cfg.capacity : Int) := by
  rw [resetBufferPosition_kin_raw]
  have hc32 : cfg.capacity % U32 = cfg.capacity :=
    Nat.mod_eq_of_lt (by unfold U32; omega)
  have hmin : min ((now1 % 86400000) % (cfg.period * 1000)
        * cfg.frameRate % U32 / 1000) (cfg.capacity % U32) ≤ cfg.capacity := by
    rw [hc32]
    exact Nat.min_le_right _ _
  rw [i32ofBits_eq_of_lt (by omega)]
  omega

/-- C3: `kin` stays within `0 ≤ kin ≤ capacity` across every operation
(`writeData`, `resynchronize`, `clearContent`, `reset`), the output sample
buffer never changes length, every index the decimation pass writes is
strictly below `capacity` (whenever the bounds guard passes, all of its
`outputBlockSize` target indices are `< capacity`), every notified
watermark is within `[0, capacity]`, and within a period — no wraparound
observed — `writeData` never decreases `kin`; only `resynchronize` and
period wraparound recompute or reset it. -/
theorem kin_invariant (cfg : Cfg) (ds : List Int → Nat → Int)
    (st : DetState) (now now1 now2 : Nat) (frames : List Int)
    (maxSize : Nat) (isOpen : Bool)
    (hsp : cfg.samplesPerFFT ≤ cfg.capacity)
    (hcap : cfg.capacity < 2147483648)
    (hk0 : 0 ≤ st.kin) (hk1 : st.kin ≤ (cfg.capacity : Int))
    (hlen : st.d2.length = cfg.capacity) :
    (∀ st2 notifs ret,
       writeData cfg ds st now frames maxSize = some (st2, notifs, ret) →
       (0 ≤ st2.kin ∧ st2.kin ≤ (cfg.capacity : Int)
         ∧ st2.d2.length = cfg.capacity) ∧
       (¬ secondInPeriod cfg now < st.ns → st.kin ≤ st2.kin) ∧
       (∀ k ∈ notifs, 0 ≤ k ∧ k ≤ (cfg.capacity : Int))) ∧
    (∀ stX : DetState, 0 ≤ stX.kin → stX.kin < blockBound cfg →
       ∀ i, i < cfg.samplesPerFFT → stX.kin.toNat + i < cfg.capacity) ∧
    (0 ≤ (resetBufferPosition cfg st now1 now2).kin ∧
     (resetBufferPosition cfg st now1 now2).kin ≤ (cfg.capacity : Int) ∧
     (resetBufferPosition cfg st now1 now2).d2.length = cfg.capacity) ∧
    ((resetBufferContent st).kin = st.kin ∧
     (resetBufferContent st).d2.length = cfg.capacity) ∧
    (0 ≤ (reset cfg st now1 now2 isOpen).1.kin ∧
     (reset cfg st now1 now2 isOpen).1.kin ≤ (cfg.capacity : Int) ∧
     (reset cfg st now1 now2 isOpen).1.d2.length = cfg.capacity) := by
  have hwc := wrapCheck_bounds cfg st now hk0 hk1
  refine ⟨?_, ?_, ?_, ?_, ?_⟩
  · intro st2 notifs ret heq
    unfold writeData at heq
    by_cases ht : maxSize % cfg.bytesPerFrame = 0
    · rw [if_neg (by simp [ht])] at heq
      simp only [Option.some.injEq, Prod.mk.injEq] at heq
      obtain ⟨h1, h2, _⟩ := heq
      have hinv := writeLoop_inv cfg ds frames
        (min (maxSize / cfg.bytesPerFrame)
          (framesAcceptable cfg (wrapCheck cfg st now).kin))
        hsp hcap
        (min (maxSize / cfg.bytesPerFrame)
          (framesAcceptable cfg (wrapCheck cfg st now).kin))
        (min (maxSize / cfg.bytesPerFrame)
          (framesAcceptable cfg (wrapCheck cfg st now).kin))
        (wrapCheck cfg st now) hwc.1 hwc.2.1
        (by rw [hwc.2.2.1]; exact hlen)
      subst h1 h2
      refine ⟨⟨hinv.1, hinv.2.1, hinv.2.2.2.1⟩, ?_, hinv.2.2.2.2⟩
      intro hnw
      exact le_of_eq (hwc.2.2.2 hnw).symm |>.trans hinv.2.2.1
    · rw [if_pos (by simp [ht])] at heq
      exact absurd heq (by simp)
  · intro stX hx0 hx1 i hi
    rw [blockBound_eq cfg hsp hcap] at hx1
    omega
  · refine ⟨(resetBufferPosition_kin_bounds cfg st now1 now2 hcap).1,
      (resetBufferPosition_kin_bounds cfg st now1 now2 hcap).2, ?_⟩
    rw [resetBufferPosition_d2_length]
    exact hlen
  · refine ⟨rfl, ?_⟩
    show (List.replicate st.d2.length (0 : Int)).length = cfg.capacity
    rw [List.length_replicate]
    exact hlen
  · have hb := resetBufferPosition_kin_bounds cfg st now1 now2 hcap
    refine ⟨hb.1, hb.2, ?_⟩
    show (List.replicate (resetBufferPosition cfg st now1 now2).d2.length
            (0 : Int)).length = cfg.capacity
    rw [List.length_replicate, resetBufferPosition_d2_length]
    exact hlen

end Detector

namespace Detector

/-- Concrete instance of `kin_invariant`: a write from `kin = 2` that
produces one decimated block keeps `0 ≤ kin ≤ capacity` and does not
decrease `kin` (2 ≤ 4). -/
theorem kin_invariant_witness :
    writeData ⟨1, 15, 2, 2, 8, 2⟩ (fun _ _ => 9)
        ⟨2, 1, List.replicate 8 0, List.replicate 4 0, 0⟩ 0 [4, 5, 6] 6
      = some (⟨4, 0, [0, 0, 9, 9, 0, 0, 0, 0], [0, 4, 5, 6], 0⟩, [4], 6) ∧
    ((0 : Int) ≤ 4 ∧ (4 : Int) ≤ 8) ∧ (2 : Int) ≤ 4 := by
  have heq : writeData ⟨1, 15, 2, 2, 8, 2⟩ (fun _ _ => 9)
      ⟨2, 1, List.replicate 8 0, List.replicate 4 0, 0⟩ 0 [4, 5, 6] 6
      = some (⟨4, 0, [0, 0, 9, 9, 0, 0, 0, 0], [0, 4, 5, 6], 0⟩, [4], 6) := by
    decide
  have h := kin_invariant ⟨1, 15, 2, 2, 8, 2⟩ (fun _ _ => 9)
      ⟨2, 1, List.replicate 8 0, List.replicate 4 0, 0⟩ 0 5000 5000 [4, 5, 6] 6
      true (by decide) (by decide) (by decide) (by decide) (by decide)
  have hw := h.1 ⟨4, 0, [0, 0, 9, 9, 0, 0, 0, 0], [0, 4, 5, 6], 0⟩ [4] 6 heq
  exact ⟨heq, ⟨hw.1.1, hw.1.2.1⟩, hw.2.1 (by decide)⟩

theorem writeLoop_frames_agree (cfg : Cfg) (ds : List Int → Nat → Int)
    (frames1 frames2 : List Int) (accepted : Nat)
    (hf : frames1.take accepted = frames2.take accepted) :
    ∀ fuel remaining st, remaining ≤ accepted →
      writeLoop cfg ds frames1 accepted fuel remaining st
        = writeLoop cfg ds frames2 accepted fuel remaining st := by
  intro fuel
  induction fuel with
  | zero => intro remaining st _; rfl
  | succ f ih =>
    intro remaining st hr
    by_cases h0 : remaining = 0
    · subst h0
      rw [writeLoop_rem_zero, writeLoop_rem_zero]
    · simp only [writeLoop]
      rw [if_neg h0, if_neg h0]
      have hchunk : (frames1.drop (accepted - remaining)).take
            (min (winSize cfg - st.bufferPos) remaining)
          = (frames2.drop (accepted - remaining)).take
            (min (winSize cfg - st.bufferPos) remaining) := by
        have hsn : (accepted - remaining)
            + min (winSize cfg - st.bufferPos) remaining ≤ accepted := by
          have := Nat.min_le_right (winSize cfg - st.bufferPos) remaining
          omega
        rw [List.take_drop, List.take_drop]
        congr 1
        have htk := congrArg
          (List.take ((accepted - remaining)
            + min (winSize cfg - st.bufferPos) remaining)) hf
        rw [List.take_take, List.take_take, Nat.min_eq_left hsn] at htk
        exact htk
      rw [hchunk]
      split
      · rw [ih (remaining - min (winSize cfg - st.bufferPos) remaining) _
          (by omega)]
      · exact ih (remaining - min (winSize cfg - st.bufferPos) remaining) _
          (by omega)

end Detector

namespace Detector

/-- C1: for a call whose byte length is a whole number of frames, the
accepted frame count is `min(requestedFrames, (capacity − kin) × NDOWN)`:
`framesAcceptable` evaluates to exactly `(capacity − kin) × NDOWN` (for the
`kin` in force after the period check), the whole call behaves identically
when the input is truncated to that accepted count — the excess frames are
dropped without being buffered or retried — and the call returns the
original requested byte length even when frames were dropped. -/
theorem writeData_accepts_min_and_drops_excess (cfg : Cfg)
    (ds : List Int → Nat → Int) (st : DetState) (now : Nat)
    (frames : List Int) (maxSize : Nat)
    (htorn : maxSize % cfg.bytesPerFrame = 0)
    (hk0 : 0 ≤ (wrapCheck cfg st now).kin)
    (hk1 : (wrapCheck cfg st now).kin ≤ (cfg.capacity : Int))
    (hcap : cfg.capacity < 2147483648)
    (hmul : cfg.capacity * cfg.ndown < U64) :
    framesAcceptable cfg (wrapCheck cfg st now).kin
      = (cfg.capacity - (wrapCheck cfg st now).kin.toNat) * cfg.ndown ∧
    (writeData cfg ds st now frames maxSize).map (fun r => r.2.2)
      = some maxSize ∧
    writeData cfg ds st now frames maxSize
      = writeData cfg ds st now
          (frames.take (min (maxSize / cfg.bytesPerFrame)
            ((cfg.capacity - (wrapCheck cfg st now).kin.toNat) * cfg.ndown)))
          maxSize := by
  have hfa := framesAcceptable_eq cfg hk0 hk1 hcap hmul
  refine ⟨hfa, ?_, ?_⟩
  · unfold writeData
    rw [if_neg (by simp [htorn])]
    rfl
  · unfold writeData
    rw [if_neg (by simp [htorn]), if_neg (by simp [htorn]), ← hfa]
    simp only
    have hagree := writeLoop_frames_agree cfg ds frames
      (frames.take (min (maxSize / cfg.bytesPerFrame)
        (framesAcceptable cfg (wrapCheck cfg st now).kin)))
      (min (maxSize / cfg.bytesPerFrame)
        (framesAcceptable cfg (wrapCheck cfg st now).kin))
      (by rw [List.take_take, min_self])
      (min (maxSize / cfg.bytesPerFrame)
        (framesAcceptable cfg (wrapCheck cfg st now).kin))
      (min (maxSize / cfg.bytesPerFrame)
        (framesAcceptable cfg (wrapCheck cfg st now).kin))
      (wrapCheck cfg st now) (le_refl _)
    rw [hagree]

end Detector

namespace Detector

/-- Concrete instance of `writeData_accepts_min_and_drops_excess`: with
capacity 8, `kin = 6` and decimation factor 2 only `(8-6)*2 = 4` frames are
acceptable; a 5-frame write accepts 4, behaves exactly like a 4-frame
write, and still returns the requested 10 bytes. -/
theorem writeData_accepts_min_and_drops_excess_witness :
    framesAcceptable ⟨1, 15, 2, 2, 8, 2⟩ 6 = 4 ∧
    (writeData ⟨1, 15, 2, 2, 8, 2⟩ (fun _ _ => 9)
        ⟨6, 0, List.replicate 8 0, List.replicate 4 0, 0⟩ 0 [1, 2, 3, 4, 5]
        10).map (fun r => r.2.2) = some 10 ∧
    writeData ⟨1, 15, 2, 2, 8, 2⟩ (fun _ _ => 9)
        ⟨6, 0, List.replicate 8 0, List.replicate 4 0, 0⟩ 0 [1, 2, 3, 4, 5] 10
      = writeData ⟨1, 15, 2, 2, 8, 2⟩ (fun _ _ => 9)
          ⟨6, 0, List.replicate 8 0, List.replicate 4 0, 0⟩ 0 [1, 2, 3, 4]
          10 := by
  have h := writeData_accepts_min_and_drops_excess ⟨1, 15, 2, 2, 8, 2⟩
      (fun _ _ => 9) ⟨6, 0, List.replicate 8 0, List.replicate 4 0, 0⟩ 0
      [1, 2, 3, 4, 5] 10 (by decide) (by decide) (by decide) (by decide)
      (by decide)
  exact ⟨h.1.trans (by decide), h.2.1, h.2.2.trans (by decide)⟩

end Detector

namespace Detector

/-- C9 counterexample: a concrete `writeData` call whose event trace is
`[acquire, notify 3, release]` — the `framesWritten` notification (index 1)
is emitted before the lock release (index 2), because `Q_EMIT` sits inside
the `QMutexLocker` scope of `Detector::writeData`; it is not the case that
a release precedes every notification. -/
theorem notify_inside_lock_counterexample :
    writeDataTrace ⟨1000, 15, 2, 2, 8, 2⟩ (fun _ _ => 9)
        ⟨1, 1, List.replicate 8 0, List.replicate 4 0, 0⟩ 0 [5, 6, 7] 6
      = [Event.acquire, Event.notify 3, Event.release] ∧
    ¬ (∀ i : Nat, ∀ k : Int,
        (writeDataTrace ⟨1000, 15, 2, 2, 8, 2⟩ (fun _ _ => 9)
            ⟨1, 1, List.replicate 8 0, List.replicate 4 0, 0⟩ 0 [5, 6, 7]
            6).getD i Event.acquire = Event.notify k →
        ∃ j, j < i ∧
          (writeDataTrace ⟨1000, 15, 2, 2, 8, 2⟩ (fun _ _ => 9)
              ⟨1, 1, List.replicate 8 0, List.replicate 4 0, 0⟩ 0 [5, 6, 7]
              6).getD j Event.acquire = Event.release) := by
  refine ⟨by decide, ?_⟩
  intro hAll
  obtain ⟨j, hj, hrel⟩ := hAll 1 3 (by decide)
  have hj0 : j = 0 := by omega
  subst hj0
  exact absurd hrel (by decide)

/-- C9 (amended): each mutating operation holds the single exclusive lock
for its entire body; in every successful `writeData` call the trace starts
with the lock acquisition, ends with the release, and the events strictly
between them are exactly the `framesWritten` notifications — so every
notification is emitted while the lock is still held, not after release. -/
theorem lock_held_across_notification (cfg : Cfg)
    (ds : List Int → Nat → Int) (st : DetState) (now : Nat)
    (frames : List Int) (maxSize : Nat) (st2 : DetState) (notifs : List Int)
    (ret : Nat)
    (heq : writeData cfg ds st now frames maxSize = some (st2, notifs, ret)) :
    (writeDataTrace cfg ds st now frames maxSize).head?
      = some Event.acquire ∧
    (writeDataTrace cfg ds st now frames maxSize).getLast?
      = some Event.release ∧
    ((writeDataTrace cfg ds st now frames maxSize).drop 1).dropLast
      = notifs.map Event.notify := by
  have htr : writeDataTrace cfg ds st now frames maxSize
      = Event.acquire :: (notifs.map Event.notify ++ [Event.release]) := by
    unfold writeDataTrace
    rw [heq]
  rw [htr]
  refine ⟨rfl, ?_, ?_⟩
  · rw [show Event.acquire :: (notifs.map Event.notify ++ [Event.release])
        = (Event.acquire :: notifs.map Event.notify) ++ [Event.release]
      from rfl]
    rw [List.getLast?_append]
    rfl
  · rw [List.drop_one, List.tail_cons, List.dropLast_concat]

/-- Concrete instance of `lock_held_across_notification`: a call producing
one decimated block has trace `[acquire, notify 4, release]` — acquisition
first, release last, the notification strictly between them. -/
theorem lock_held_across_notification_witness :
    writeData ⟨1, 15, 2, 2, 8, 2⟩ (fun _ _ => 7)
        ⟨2, 1, List.replicate 8 0, List.replicate 4 0, 0⟩ 0 [4, 5, 6] 6
      = some (⟨4, 0, [0, 0, 7, 7, 0, 0, 0, 0], [0, 4, 5, 6], 0⟩, [4], 6) ∧
    (writeDataTrace ⟨1, 15, 2, 2, 8, 2⟩ (fun _ _ => 7)
        ⟨2, 1, List.replicate 8 0, List.replicate 4 0, 0⟩ 0 [4, 5, 6]
        6).head? = some Event.acquire ∧
    (writeDataTrace ⟨1, 15, 2, 2, 8, 2⟩ (fun _ _ => 7)
        ⟨2, 1, List.replicate 8 0, List.replicate 4 0, 0⟩ 0 [4, 5, 6]
        6).getLast? = some Event.release ∧
    ((writeDataTrace ⟨1, 15, 2, 2, 8, 2⟩ (fun _ _ => 7)
        ⟨2, 1, List.replicate 8 0, List.replicate 4 0, 0⟩ 0 [4, 5, 6]
        6).drop 1).dropLast = [Event.notify 4] := by
  have heq : writeData ⟨1, 15, 2, 2, 8, 2⟩ (fun _ _ => 7)
      ⟨2, 1, List.replicate 8 0, List.replicate 4 0, 0⟩ 0 [4, 5, 6] 6
      = some (⟨4, 0, [0, 0, 7, 7, 0, 0, 0, 0], [0, 4, 5, 6], 0⟩, [4], 6) := by
    decide
  have h := lock_held_across_notification ⟨1, 15, 2, 2, 8, 2⟩ (fun _ _ => 7)
      ⟨2, 1, List.replicate 8 0, List.replicate 4 0, 0⟩ 0 [4, 5, 6] 6
      ⟨4, 0, [0, 0, 7, 7, 0, 0, 0, 0], [0, 4, 5, 6], 0⟩ [4] 6 heq
  exact ⟨heq, h.1, h.2.1, h.2.2⟩

end Detector
